import Mathlib

/-!
Shallow embedding of the MetaSTD fixed-capacity buffer core
(`Structures/Buffer.hpp`, first definition in the translation unit, together
with the error machinery of `Errors/Errors.hpp` / `Errors/ErrorUnion.hpp` and
the `getBytes` helper of `Utils/ArrayUtils.hpp`).

Modelling conventions:
* `size_t` quantities are modelled as `Nat`.  The two places where the C++
  code can subtract past zero on a `size_t` are modelled with the exact
  64-bit wraparound: `pop_back`'s decrement becomes
  `(length + (2^64 - 1)) % 2^64`, and `copyOver`'s `length += count - offset`
  becomes `(length + (count + 2^64 - offset) % 2^64) % 2^64`, i.e. the
  two's-complement difference `(count - offset) mod 2^64` added mod `2^64`.
* `std::array<T, C>` storage is modelled as a total function `Nat → T`:
  indices `≥ C` stand for the out-of-bounds region the C++ code can reach
  (undefined behaviour there; the model simply keeps those cells addressable
  so that the length bookkeeping of every operation stays observable).
* `std::copy(first, last, out)` over non-aliased ranges is modelled by
  `writeList` applied to a snapshot of the source range; the self-aliased
  call `copyOver(0, *this, n, size() - n)` inside `take` is modelled by the
  elementwise forward loop `selfCopyLoop`, exactly the order the generic
  `std::copy` template performs the assignments.
* `ErrorUnion<void>` results are modelled as `Option Meta.Error`
  (`none` = success); operations additionally return the post-state.
* `REGISTER_ERROR` runs once for this translation unit, so the single
  registered identity `BUFFER_ERROR_OVERRUN` carries the first counter value;
  `MAKE_ERROR(def, msg)` records the `__LINE__` of the call site,
  reproduced from the source file.
-/

set_option linter.unusedVariables false

namespace Meta

/-- `ErrorDef` of `Errors.hpp`: a registered error identity, compared by
`errorCode` only. -/
structure ErrorDef where
  errorCode : Nat
  errorName : String
deriving DecidableEq, Repr

/-- `Error` of `Errors.hpp`: an occurrence of a registered identity with a
message and the source line of the `MAKE_ERROR` call. -/
structure Error where
  errorDef : ErrorDef
  msg : String
  line : Nat
deriving DecidableEq, Repr

/-- The only identity the buffer translation unit registers:
`REGISTER_ERROR("BUFFER_ERROR_OVERRUN")` (Buffer.hpp line 12). -/
def BUFFER_ERROR_OVERRUN : ErrorDef :=
  { errorCode := 0, errorName := "BUFFER_ERROR_OVERRUN" }

/-- `Buffer<T, C>`: fixed storage plus the live-length cursor. -/
structure Buffer (T : Type) (C : Nat) where
  data : Nat → T
  length : Nat

/-- Write one storage cell (a single array assignment `data[k] = v`). -/
def upd {T : Type} (d : Nat → T) (k : Nat) (v : T) : Nat → T :=
  fun i => if i = k then v else d i

/-- Forward elementwise write of the snapshot list `l` starting at `start`:
the meaning of `std::copy(src, src + n, data.begin() + start)` when the
source range does not alias the destination. -/
def writeList {T : Type} (d : Nat → T) : Nat → List T → (Nat → T)
  | _, [] => d
  | start, x :: xs => writeList (upd d start x) (start + 1) xs

/-- Snapshot of `count` source cells starting at `offset`
(`from.begin() + offset .. from.begin() + offset + count`). -/
def slice {T : Type} {N : Nat} (src : Buffer T N) (offset count : Nat) : List T :=
  (List.range count).map (fun i => src.data (offset + i))

/-- The self-aliased forward copy `std::copy(d + offset, d + offset + count,
d + over)` performed assignment by assignment on a single storage block:
step `k` executes `d[over + k] = d[offset + k]` on the current contents. -/
def selfCopyLoop {T : Type} (d : Nat → T) (over offset : Nat) : Nat → (Nat → T)
  | 0 => d
  | k + 1 =>
    upd (selfCopyLoop d over offset k) (over + k)
      (selfCopyLoop d over offset k (offset + k))

/-- `Buffer()` default constructor: `length = 0`, `data.fill(T())`. -/
def Buffer.mkEmpty {T : Type} [Inhabited T] {C : Nat} : Buffer T C :=
  { data := fun _ => default, length := 0 }

/-- `size()`. -/
def Buffer.size {T : Type} {C : Nat} (b : Buffer T C) : Nat :=
  b.length

/-- `clear()`. -/
def Buffer.clear {T : Type} {C : Nat} (b : Buffer T C) : Buffer T C :=
  { b with length := 0 }

/-- `operator[]`: `return data[idx];` — no bounds check of any kind. -/
def Buffer.elemAt {T : Type} {C : Nat} (b : Buffer T C) (idx : Nat) : T :=
  b.data idx

/-- The element sequence visited by `begin() .. end()` iteration
(`begin() = data.begin()`, `end() = data.begin() + length`): the live
prefix `[0, length)`. -/
def Buffer.live {T : Type} {C : Nat} (b : Buffer T C) : List T :=
  (List.range b.length).map b.data

/-- `push_back(t)` (Buffer.hpp lines 110-117). -/
def Buffer.push_back {T : Type} {C : Nat} (b : Buffer T C) (t : T) :
    Option Error × Buffer T C :=
  if b.length ≥ C then
    (some { errorDef := BUFFER_ERROR_OVERRUN, msg := "Buffer overrun", line := 113 }, b)
  else
    (none, { data := upd b.data b.length t, length := b.length + 1 })

/-- `append(arr, len)` (Buffer.hpp lines 124-132); the C-array argument and
its length are modelled as one list. -/
def Buffer.append {T : Type} {C : Nat} (b : Buffer T C) (arr : List T) :
    Option Error × Buffer T C :=
  if b.length + arr.length > C then
    (some { errorDef := BUFFER_ERROR_OVERRUN, msg := "Buffer overrun", line := 127 }, b)
  else
    (none, { data := writeList b.data b.length arr, length := b.length + arr.length })

/-- `pop_back()` (Buffer.hpp lines 152-154): `return data[length--];` —
reads the cell at the old `length` (one past the live prefix) and then
decrements the `size_t` counter with 64-bit wraparound. -/
def Buffer.pop_back {T : Type} {C : Nat} (b : Buffer T C) : T × Buffer T C :=
  (b.data b.length, { b with length := (b.length + (2 ^ 64 - 1)) % 2 ^ 64 })

/-- `copy(from, offset, count)` with an explicit `count` argument
(Buffer.hpp lines 164-177).  Only the offset is validated; the destination
capacity is never checked. -/
def Buffer.copy {T : Type} {C N : Nat} (b : Buffer T C) (src : Buffer T N)
    (offset count : Nat) : Option Error × Buffer T C :=
  if offset > src.length then
    (some { errorDef := BUFFER_ERROR_OVERRUN, msg := "Offset out of bounds", line := 168 }, b)
  else
    (none, { data := writeList b.data b.length (slice src offset count),
             length := b.length + count })

/-- `copy(from, offset)` with `count` left at its `(size_t)-1` default:
after the offset check the sentinel is replaced by `from.size() - offset`.
In the error branch `count` is never consulted, so delegating to
`Buffer.copy` with the substituted count is exact. -/
def Buffer.copyAll {T : Type} {C N : Nat} (b : Buffer T C) (src : Buffer T N)
    (offset : Nat) : Option Error × Buffer T C :=
  b.copy src offset (src.length - offset)

/-- `copyOver(over, from, offset, count)` with an explicit `count` and a
source object distinct from `this` (Buffer.hpp lines 182-198).  On success
the code runs `length += count - offset` whenever `over + count` exceeds the
current length; the `size_t` subtraction wraps when `offset > count`, so the
update is modelled as the two's-complement difference
`(count - offset) mod 2^64` added to `length` mod `2^64`. -/
def Buffer.copyOver {T : Type} {C N : Nat} (b : Buffer T C) (src : Buffer T N)
    (over offset count : Nat) : Option Error × Buffer T C :=
  if over + count > C then
    (some { errorDef := BUFFER_ERROR_OVERRUN, msg := "Buffer overrun", line := 186 }, b)
  else
    (none, { data := writeList b.data over (slice src offset count),
             length := if over + count > b.length
                       then (b.length + (count + 2 ^ 64 - offset) % 2 ^ 64) % 2 ^ 64
                       else b.length })

/-- `copyOver(over, *this, offset, count)`: the same member called with
`from` aliasing `this` (as `take` does), so the `std::copy` runs as a
forward loop over the single storage block; the length update is the same
wrapping `length += count - offset`. -/
def Buffer.copyOverSelf {T : Type} {C : Nat} (b : Buffer T C)
    (over offset count : Nat) : Option Error × Buffer T C :=
  if over + count > C then
    (some { errorDef := BUFFER_ERROR_OVERRUN, msg := "Buffer overrun", line := 186 }, b)
  else
    (none, { data := selfCopyLoop b.data over offset count,
             length := if over + count > b.length
                       then (b.length + (count + 2 ^ 64 - offset) % 2 ^ 64) % 2 ^ 64
                       else b.length })

/-- `take<N>(n)` (Buffer.hpp lines 246-258): extract the first `n` elements
into a fresh capacity-`N` buffer, shift the rest to the front via the
self-aliased `copyOver(0, *this, n, size() - n)`, then `length -= n`.
Both intermediate error results are discarded, as in the source. -/
def Buffer.take {T : Type} [Inhabited T] {C : Nat} (b : Buffer T C)
    (N n : Nat) : Buffer T N × Buffer T C :=
  let taken := ((Buffer.mkEmpty : Buffer T N).copy b 0 n).2
  let b1 := (b.copyOverSelf 0 n (b.length - n)).2
  (taken, { b1 with length := b1.length - n })

/-- Move constructor `Buffer(Buffer&&)` (Buffer.hpp lines 63-66): copies the
array and length, then zeroes the source's length.  Returns
(destination, moved-from source). -/
def Buffer.moveCtor {T : Type} {C : Nat} (other : Buffer T C) :
    Buffer T C × Buffer T C :=
  ({ data := other.data, length := other.length }, { other with length := 0 })

/-- Move assignment `operator=(Buffer&&)` (Buffer.hpp lines 76-81): the
destination's previous contents are discarded wholesale.  Returns
(destination, moved-from source). -/
def Buffer.moveAssign {T : Type} {C : Nat} (_dst other : Buffer T C) :
    Buffer T C × Buffer T C :=
  ({ data := other.data, length := other.length }, { other with length := 0 })

/-- `getBytes(t)` of `ArrayUtils.hpp` (lines 510-517) for an unsigned value
occupying `w` bytes: byte `i` is `(t >> (i*8)) & 0xFF`, little-endian. -/
def getBytes (w : Nat) (t : Nat) : List Nat :=
  (List.range w).map (fun i => t / 2 ^ (8 * i) % 256)

/-- `toBytes()` (Buffer.hpp lines 223-229) for elements of byte width `w`:
append each live element's `getBytes` expansion to a fresh byte buffer,
discarding each `append`'s error result as the source does. -/
def Buffer.toBytes {C : Nat} (b : Buffer Nat C) (w : Nat) : Buffer Nat (C * w) :=
  (List.range b.length).foldl
    (fun acc i => (acc.append (getBytes w (b.data i))).2) Buffer.mkEmpty

/-- Run a whole list of `push_back` calls from the front, reporting whether
every call succeeded together with the final state. -/
def Buffer.pushAll {T : Type} {C : Nat} (b : Buffer T C) :
    List T → Bool × Buffer T C
  | [] => (true, b)
  | t :: ts =>
    let r := b.push_back t
    let r2 := r.2.pushAll ts
    (r.1.isNone && r2.1, r2.2)

/-! ### Storage lemmas -/

theorem upd_self {T : Type} (d : Nat → T) (k : Nat) (v : T) : upd d k v k = v := by
  simp [upd]

theorem upd_ne {T : Type} (d : Nat → T) (k : Nat) (v : T) {i : Nat} (h : i ≠ k) :
    upd d k v i = d i := by
  simp [upd, h]

theorem writeList_lt {T : Type} (l : List T) (d : Nat → T) (start i : Nat)
    (h : i < start) : writeList d start l i = d i := by
  induction l generalizing d start with
  | nil => rfl
  | cons x xs ih =>
    simp only [writeList]
    rw [ih _ _ (Nat.lt_succ_of_lt h)]
    exact upd_ne d start x (Nat.ne_of_lt h)

theorem writeList_ge {T : Type} (l : List T) (d : Nat → T) (start i : Nat)
    (h : start + l.length ≤ i) : writeList d start l i = d i := by
  induction l generalizing d start with
  | nil => rfl
  | cons x xs ih =>
    simp only [writeList]
    simp only [List.length_cons] at h
    rw [ih _ _ (by omega)]
    exact upd_ne d start x (by omega)

theorem writeList_get {T : Type} (l : List T) (d : Nat → T) (start i : Nat)
    (h : i < l.length) : writeList d start l (start + i) = l[i] := by
  induction l generalizing d start i with
  | nil => simp at h
  | cons x xs ih =>
    cases i with
    | zero =>
      simp only [writeList, Nat.add_zero, List.getElem_cons_zero]
      rw [writeList_lt xs _ (start + 1) start (Nat.lt_succ_self start)]
      exact upd_self d start x
    | succ j =>
      simp only [List.length_cons] at h
      have hj : j < xs.length := by omega
      have harith : start + (j + 1) = (start + 1) + j := by omega
      simp only [writeList, List.getElem_cons_succ, harith]
      exact ih (upd d start x) (start + 1) j hj

theorem live_length {T : Type} {C : Nat} (b : Buffer T C) :
    b.live.length = b.length := by
  simp [Buffer.live]

theorem live_getElem {T : Type} {C : Nat} (b : Buffer T C) (i : Nat)
    (h : i < b.live.length) : b.live[i] = b.data i := by
  simp [Buffer.live]

theorem slice_length {T : Type} {N : Nat} (src : Buffer T N) (offset count : Nat) :
    (slice src offset count).length = count := by
  simp [slice]

theorem slice_getElem {T : Type} {N : Nat} (src : Buffer T N) (offset count i : Nat)
    (h : i < (slice src offset count).length) :
    (slice src offset count)[i] = src.data (offset + i) := by
  simp [slice]

theorem live_write {T : Type} {C : Nat} (b : Buffer T C) (arr : List T) :
    (Buffer.mk (writeList b.data b.length arr) (b.length + arr.length) : Buffer T C).live
      = b.live ++ arr := by
  apply List.ext_getElem
  · simp [Buffer.live]
  · intro i h1 h2
    simp only [Buffer.live, List.getElem_map, List.getElem_range]
    rcases Nat.lt_or_ge i b.length with hlt | hge
    · rw [writeList_lt arr b.data b.length i hlt]
      rw [List.getElem_append_left (by simpa [Buffer.live] using hlt)]
      simp [Buffer.live]
    · have hi : i < b.length + arr.length := by
        simpa [Buffer.live] using h1
      have hj : i - b.length < arr.length := by omega
      have harith : i = b.length + (i - b.length) := by omega
      have hw := writeList_get arr b.data b.length (i - b.length) hj
      rw [← harith] at hw
      rw [hw, List.getElem_append_right (by simp [Buffer.live]; omega)]
      simp [Buffer.live]

theorem selfCopyLoop_zero {T : Type} (d : Nat → T) (n k : Nat) :
    ∀ i : Nat, selfCopyLoop d 0 n k i = if i < k then d (n + i) else d i := by
  induction k with
  | zero => intro i; simp [selfCopyLoop]
  | succ k ih =>
    intro i
    simp only [selfCopyLoop, Nat.zero_add]
    by_cases hik : i = k
    · subst hik
      rw [upd_self, ih (n + i), if_neg (by omega), if_pos (by omega)]
    · rw [upd_ne _ _ _ hik, ih i]
      by_cases hlt : i < k
      · rw [if_pos hlt, if_pos (by omega)]
      · rw [if_neg hlt, if_neg (by omega)]

/-! ### Claim theorems -/

/-- Claim C1: the spec's invariant says no mutation that returns success may
leave `length > Capacity`.  Evaluated at the failing input the code violates
it: a capacity-2 buffer already holding 2 elements accepts `copy` of one more
element without error (`copy` never checks the destination capacity), leaving
`length = 3 > C = 2`. -/
theorem claim_C1_copy_overruns_capacity :
    ((((Buffer.mkEmpty : Buffer Nat 2).push_back 1).2.push_back 2).2).length = 2 ∧
    (((((Buffer.mkEmpty : Buffer Nat 2).push_back 1).2.push_back 2).2).copyAll
      (((Buffer.mkEmpty : Buffer Nat 1).push_back 5).2) 0).1 = none ∧
    (((((Buffer.mkEmpty : Buffer Nat 2).push_back 1).2.push_back 2).2).copyAll
      (((Buffer.mkEmpty : Buffer Nat 1).push_back 5).2) 0).2.length = 3 ∧
    2 < 3 := by
  decide

/-- Claim C7: the spec requires `pop_back` on a non-empty buffer to return the
last live element and on an empty buffer to fail with `EMPTY`.  The code does
neither: `return data[length--];` reads the stale cell one past the live
prefix (on a buffer holding only `42` it returns the zero-initialized slot,
not `42`) and on an empty buffer wraps the `size_t` length to `2^64 - 1`. -/
theorem claim_C7_pop_back_stale_read_and_underflow :
    (((Buffer.mkEmpty : Buffer Nat 2).push_back 42).2).live = [42] ∧
    ((((Buffer.mkEmpty : Buffer Nat 2).push_back 42).2).pop_back).1 = 0 ∧
    ((((Buffer.mkEmpty : Buffer Nat 2).push_back 42).2).pop_back).1 ≠ 42 ∧
    ((Buffer.mkEmpty : Buffer Nat 2).pop_back).1 = 0 ∧
    ((Buffer.mkEmpty : Buffer Nat 2).pop_back).2.length = 2 ^ 64 - 1 := by
  refine ⟨rfl, rfl, by decide, rfl, ?_⟩
  rfl

/-- Claim C4 counterexample: the out-of-range-offset failure of `copy` does
not carry a distinct `OFFSET_OUT_OF_BOUNDS` identity — it carries the very
same `BUFFER_ERROR_OVERRUN` identity that a capacity overrun produces (only
the message string differs), because the translation unit registers no other
identity. -/
theorem claim_C4_cex_offset_error_identity_is_overrun :
    let dest := (Buffer.mkEmpty : Buffer Nat 2)
    let src := ((Buffer.mkEmpty : Buffer Nat 2).push_back 1).2
    let full := (((Buffer.mkEmpty : Buffer Nat 2).push_back 1).2.push_back 2).2
    (dest.copyAll src 5).1 =
      some { errorDef := BUFFER_ERROR_OVERRUN, msg := "Offset out of bounds", line := 168 } ∧
    (full.push_back 9).1 =
      some { errorDef := BUFFER_ERROR_OVERRUN, msg := "Buffer overrun", line := 113 } ∧
    ((dest.copyAll src 5).1.map (fun e => e.errorDef) =
      (full.push_back 9).1.map (fun e => e.errorDef)) ∧
    (dest.copyAll src 5).2.live = dest.live := by
  decide

/-- Claim C5 counterexample, two refutations.  First, `copyOver` does not
set `length = max(length, destOffset + count)`: on a capacity-8 buffer of
length 1, `copyOver(2, src, 0, 3)` succeeds and the code executes
`length += count - offset`, giving `length = 4`, whereas the claimed update
`max(1, 2 + 3)` is `5`.  Second, `copyOver` is not correct when source and
destination ranges overlap within the same buffer: on a capacity-8 buffer
holding `[1,2,3,4,5]`, the self-aliased `copyOver(2, *this, 0, 3)` should
move the original cells `[1,2,3]` onto positions 2..4, but the naive forward
copy rereads position 2 after overwriting it, leaving cell 4 holding `1`
instead of the original cell-2 value `3`. -/
theorem claim_C5_cex_length_update_is_not_max :
    let dest := ((Buffer.mkEmpty : Buffer Nat 8).push_back 9).2
    let src :=
      ((((Buffer.mkEmpty : Buffer Nat 4).push_back 1).2.push_back 2).2.push_back 3).2
    let b := ((((((Buffer.mkEmpty : Buffer Nat 8).push_back 1).2.push_back
      2).2.push_back 3).2.push_back 4).2.push_back 5).2
    (dest.copyOver src 2 0 3).1 = none ∧
    (dest.copyOver src 2 0 3).2.length = 4 ∧
    max dest.length (2 + 3) = 5 ∧ (4 : Nat) ≠ 5 ∧
    b.live = [1, 2, 3, 4, 5] ∧
    (b.copyOverSelf 2 0 3).1 = none ∧
    b.data 2 = 3 ∧
    (b.copyOverSelf 2 0 3).2.data 4 = 1 ∧ (1 : Nat) ≠ 3 := by
  decide

/-- Claim C9 counterexample: `operator[]` performs no bounds check.  On a
capacity-4 buffer holding the single element `7`, reading index `2 ≥ length`
silently yields the stale zero-initialized slot value instead of failing or
asserting. -/
theorem claim_C9_cex_unchecked_index_returns_stale :
    let b := ((Buffer.mkEmpty : Buffer Nat 4).push_back 7).2
    b.length = 1 ∧ b.elemAt 2 = b.data 2 ∧ b.elemAt 2 = 0 := by
  decide

/-- Claim C10: move construction and move assignment copy the live prefix and
length to the destination and zero the source's length, so the moved-from
buffer reports `size() = 0` and an empty live sequence while the destination
holds exactly the source's former live prefix. -/
theorem claim_C10_move_empties_source {T : Type} {C : Nat} (other dst : Buffer T C) :
    (other.moveCtor.1.live = other.live ∧
     other.moveCtor.1.length = other.length ∧
     other.moveCtor.2.size = 0 ∧ other.moveCtor.2.live = []) ∧
    ((Buffer.moveAssign dst other).1.live = other.live ∧
     (Buffer.moveAssign dst other).1.length = other.length ∧
     (Buffer.moveAssign dst other).2.size = 0 ∧
     (Buffer.moveAssign dst other).2.live = []) :=
  ⟨⟨rfl, rfl, rfl, rfl⟩, ⟨rfl, rfl, rfl, rfl⟩⟩

theorem pushAll_ok {T : Type} {C : Nat} :
    ∀ (l : List T) (b : Buffer T C), b.length + l.length ≤ C →
      (b.pushAll l).1 = true ∧ (b.pushAll l).2.length = b.length + l.length := by
  intro l
  induction l with
  | nil =>
    intro b _
    exact ⟨rfl, by simp [Buffer.pushAll]⟩
  | cons t ts ih =>
    intro b h
    simp only [List.length_cons] at h
    have hlt : ¬ b.length ≥ C := by omega
    have hpush : b.push_back t =
        (none, { data := upd b.data b.length t, length := b.length + 1 }) := by
      simp [Buffer.push_back, hlt]
    have hrec := ih { data := upd b.data b.length t, length := b.length + 1 }
      (by simp only []; omega)
    simp only [Buffer.pushAll, hpush, Option.isNone_none, Bool.true_and]
    refine ⟨hrec.1, ?_⟩
    rw [hrec.2]
    show b.length + 1 + ts.length = b.length + (ts.length + 1)
    omega

/-- Claim C2: `push_back` fails exactly when `length = C` (given the
`length ≤ C` invariant), the failure carries the `BUFFER_ERROR_OVERRUN`
identity and leaves the buffer untouched, success extends the length by one
and stores the item at the new index `length - 1`, and any sequence of at
most `C` pushes onto an empty buffer all succeed with `size()` equal to the
count pushed. -/
theorem claim_C2_push_back_contract {T : Type} [Inhabited T] {C : Nat}
    (b : Buffer T C) (t : T) (hinv : b.length ≤ C) :
    ((b.push_back t).1.isSome ↔ b.length = C) ∧
    (b.length = C →
      (b.push_back t).1 =
        some { errorDef := BUFFER_ERROR_OVERRUN, msg := "Buffer overrun", line := 113 } ∧
      (b.push_back t).2 = b) ∧
    (b.length < C →
      (b.push_back t).1 = none ∧
      (b.push_back t).2.length = b.length + 1 ∧
      (b.push_back t).2.elemAt ((b.push_back t).2.length - 1) = t) ∧
    (∀ l : List T, l.length ≤ C →
      ((Buffer.mkEmpty : Buffer T C).pushAll l).1 = true ∧
      ((Buffer.mkEmpty : Buffer T C).pushAll l).2.size = l.length) := by
  refine ⟨?_, ?_, ?_, ?_⟩
  · by_cases h : b.length ≥ C
    · simp [Buffer.push_back, h]
      omega
    · simp [Buffer.push_back, h]
      omega
  · intro h
    have hge : b.length ≥ C := by omega
    simp [Buffer.push_back, hge]
  · intro h
    have hge : ¬ b.length ≥ C := by omega
    have hres : b.push_back t =
        (none, { data := upd b.data b.length t, length := b.length + 1 }) := by
      simp [Buffer.push_back, hge]
    rw [hres]
    exact ⟨rfl, rfl, by simpa [Buffer.elemAt] using upd_self b.data b.length t⟩
  · intro l hl
    have h := pushAll_ok l (Buffer.mkEmpty : Buffer T C) (by simp [Buffer.mkEmpty]; omega)
    exact ⟨h.1, by simpa [Buffer.size, Buffer.mkEmpty] using h.2⟩

/-- Witness for C2 at `C = 2`: pushing `7` onto an empty capacity-2 buffer
succeeds with length 1 and stores `7` at the back; pushing `[4, 5]` from
empty succeeds with size 2. -/
theorem claim_C2_push_back_contract_witness :
    (((Buffer.mkEmpty : Buffer Nat 2).push_back 7).1 = none ∧
     ((Buffer.mkEmpty : Buffer Nat 2).push_back 7).2.length = 1) ∧
    ((Buffer.mkEmpty : Buffer Nat 2).pushAll [4, 5]).1 = true ∧
    ((Buffer.mkEmpty : Buffer Nat 2).pushAll [4, 5]).2.size = 2 := by
  have h := claim_C2_push_back_contract (Buffer.mkEmpty : Buffer Nat 2) 7 (by decide)
  have hsucc := h.2.2.1 (by decide)
  have hseq := h.2.2.2 [4, 5] (by decide)
  exact ⟨⟨hsucc.1, hsucc.2.1⟩, hseq⟩

/-- Claim C3: `append` fails exactly when `length + count > C`, the failure
carries the `BUFFER_ERROR_OVERRUN` identity and is all-or-nothing (the
buffer state is returned untouched), and success appends all elements in
order while advancing the length by `count`. -/
theorem claim_C3_append_all_or_nothing {T : Type} {C : Nat}
    (b : Buffer T C) (arr : List T) :
    ((b.append arr).1.isSome ↔ b.length + arr.length > C) ∧
    (b.length + arr.length > C →
      (b.append arr).1 =
        some { errorDef := BUFFER_ERROR_OVERRUN, msg := "Buffer overrun", line := 127 } ∧
      (b.append arr).2 = b) ∧
    (b.length + arr.length ≤ C →
      (b.append arr).1 = none ∧
      (b.append arr).2.size = b.length + arr.length ∧
      (b.append arr).2.live = b.live ++ arr) := by
  by_cases h : b.length + arr.length > C
  · refine ⟨by simp [Buffer.append, h], fun _ => by simp [Buffer.append, h], fun h2 => ?_⟩
    omega
  · refine ⟨by simp [Buffer.append, h], fun h2 => absurd h2 h, fun _ => ?_⟩
    refine ⟨by simp [Buffer.append, h], by simp [Buffer.append, h, Buffer.size], ?_⟩
    have hres : (b.append arr).2 =
        { data := writeList b.data b.length arr, length := b.length + arr.length } := by
      simp [Buffer.append, h]
    rw [hres]
    exact live_write b arr

/-- Witness for C3 at `C = 2`: appending `[1, 2]` to an empty capacity-2
buffer succeeds with size 2 and live contents `[1, 2]`; appending `[1, 2, 3]`
fails with the overrun identity and leaves the buffer unchanged. -/
theorem claim_C3_append_all_or_nothing_witness :
    (((Buffer.mkEmpty : Buffer Nat 2).append [1, 2]).1 = none ∧
     ((Buffer.mkEmpty : Buffer Nat 2).append [1, 2]).2.size = 2 ∧
     ((Buffer.mkEmpty : Buffer Nat 2).append [1, 2]).2.live =
       (Buffer.mkEmpty : Buffer Nat 2).live ++ [1, 2]) ∧
    ((Buffer.mkEmpty : Buffer Nat 2).append [1, 2, 3]).2 =
      (Buffer.mkEmpty : Buffer Nat 2) := by
  have h1 := (claim_C3_append_all_or_nothing (Buffer.mkEmpty : Buffer Nat 2) [1, 2]).2.2
    (by decide)
  have h2 := (claim_C3_append_all_or_nothing (Buffer.mkEmpty : Buffer Nat 2) [1, 2, 3]).2.1
    (by decide)
  exact ⟨h1, h2.2⟩

theorem slice_eq_drop {T : Type} {N : Nat} (src : Buffer T N) (offset : Nat)
    (h : offset ≤ src.length) :
    slice src offset (src.length - offset) = src.live.drop offset := by
  apply List.ext_getElem
  · simp [slice, Buffer.live]
  · intro i h1 h2
    have hi : i < src.length - offset := by simpa [slice] using h1
    rw [slice_getElem src offset (src.length - offset) i h1]
    rw [List.getElem_drop]
    simp [Buffer.live]

/-- Claim C4 (amended): `copy(from, offset)` with `offset > from.size()`
always fails — with the `BUFFER_ERROR_OVERRUN` identity carrying the message
"Offset out of bounds", because no separate `OFFSET_OUT_OF_BOUNDS` identity
is registered — and leaves the destination untouched; with
`offset ≤ from.size()` and the count left at its default it succeeds,
appending all of `from`'s live elements from `offset` onward to the
destination's live tail and advancing the length by that count (no
destination-capacity check is performed). -/
theorem claim_C4_copy_offset_contract {T : Type} {C N : Nat} (dst : Buffer T C)
    (src : Buffer T N) (offset : Nat) :
    (offset > src.length →
      (dst.copyAll src offset).1 =
        some { errorDef := BUFFER_ERROR_OVERRUN, msg := "Offset out of bounds", line := 168 } ∧
      (dst.copyAll src offset).2 = dst) ∧
    (offset ≤ src.length →
      (dst.copyAll src offset).1 = none ∧
      (dst.copyAll src offset).2.size = dst.length + (src.length - offset) ∧
      (dst.copyAll src offset).2.live = dst.live ++ src.live.drop offset) := by
  constructor
  · intro h
    simp [Buffer.copyAll, Buffer.copy, h]
  · intro h
    have hno : ¬ offset > src.length := by omega
    have hres : (dst.copyAll src offset).2 =
        { data := writeList dst.data dst.length (slice src offset (src.length - offset)),
          length := dst.length + (src.length - offset) } := by
      simp [Buffer.copyAll, Buffer.copy, hno]
    refine ⟨by simp [Buffer.copyAll, Buffer.copy, hno], by simp [hres, Buffer.size], ?_⟩
    rw [hres, ← slice_eq_drop src offset h]
    have hl := live_write dst (slice src offset (src.length - offset))
    rw [slice_length] at hl
    exact hl

/-- Witness for C4: copying from a 2-element buffer at offset 1 into an
empty capacity-4 buffer succeeds with size 1 and live contents `[2]`; at
offset 5 it fails and leaves the destination untouched. -/
theorem claim_C4_copy_offset_contract_witness :
    (let dst := (Buffer.mkEmpty : Buffer Nat 4)
     let src := (((Buffer.mkEmpty : Buffer Nat 2).push_back 1).2.push_back 2).2
     (dst.copyAll src 1).1 = none ∧
     (dst.copyAll src 1).2.size = 0 + (2 - 1) ∧
     (dst.copyAll src 1).2.live = dst.live ++ src.live.drop 1 ∧
     (dst.copyAll src 5).2 = dst) := by
  have hok := (claim_C4_copy_offset_contract (Buffer.mkEmpty : Buffer Nat 4)
    ((((Buffer.mkEmpty : Buffer Nat 2).push_back 1).2.push_back 2).2) 1).2 (by decide)
  have hbad := (claim_C4_copy_offset_contract (Buffer.mkEmpty : Buffer Nat 4)
    ((((Buffer.mkEmpty : Buffer Nat 2).push_back 1).2.push_back 2).2) 5).1 (by decide)
  exact ⟨hok.1, hok.2.1, hok.2.2, hbad.2⟩

/-- Claim C5 (amended): `copyOver(over, from, offset, count)` with an
explicit count fails with the `BUFFER_ERROR_OVERRUN` identity exactly when
`over + count > C`, leaving the buffer untouched on failure.  On success the
length becomes the `size_t` computation `length += count - offset` — the
two's-complement difference `(count - offset) mod 2^64` added mod `2^64`,
which wraps when `offset > count` — whenever `over + count` exceeds the
current length (not `max(length, over + count)`), and is unchanged
otherwise; and, the source being a buffer object distinct from the
destination (the self-aliased case is corrupted by the forward copy, see the
counterexample), `from`'s cells `[offset, offset + count)` land on positions
`[over, over + count)` while every other cell is left alone. -/
theorem claim_C5_copyOver_contract {T : Type} {C N : Nat} (dst : Buffer T C)
    (src : Buffer T N) (over offset count : Nat) :
    ((dst.copyOver src over offset count).1.isSome ↔ over + count > C) ∧
    (over + count > C → (dst.copyOver src over offset count).2 = dst) ∧
    (over + count ≤ C →
      (dst.copyOver src over offset count).1 = none ∧
      (dst.copyOver src over offset count).2.length =
        (if over + count > dst.length
         then (dst.length + (count + 2 ^ 64 - offset) % 2 ^ 64) % 2 ^ 64
         else dst.length) ∧
      (∀ i, i < count →
        (dst.copyOver src over offset count).2.data (over + i) =
          src.data (offset + i)) ∧
      (∀ i, i < over →
        (dst.copyOver src over offset count).2.data i = dst.data i) ∧
      (∀ i, over + count ≤ i →
        (dst.copyOver src over offset count).2.data i = dst.data i)) := by
  by_cases h : over + count > C
  · refine ⟨by simp [Buffer.copyOver, h], fun _ => by simp [Buffer.copyOver, h],
      fun h2 => by omega⟩
  · have hres : (dst.copyOver src over offset count).2 =
        { data := writeList dst.data over (slice src offset count),
          length := if over + count > dst.length
                    then (dst.length + (count + 2 ^ 64 - offset) % 2 ^ 64) % 2 ^ 64
                    else dst.length } := by
      simp [Buffer.copyOver, h]
    refine ⟨by simp [Buffer.copyOver, h], fun h2 => by omega, fun _ => ?_⟩
    refine ⟨by simp [Buffer.copyOver, h], by rw [hres], ?_, ?_, ?_⟩
    · intro i hi
      rw [hres]
      show writeList dst.data over (slice src offset count) (over + i) = _
      have hw := writeList_get (slice src offset count) dst.data over i
        (by rw [slice_length]; exact hi)
      rw [hw, slice_getElem]
    · intro i hi
      rw [hres]
      exact writeList_lt (slice src offset count) dst.data over i hi
    · intro i hi
      rw [hres]
      exact writeList_ge (slice src offset count) dst.data over i
        (by rw [slice_length]; omega)

/-- Witness for C5, both subtraction regimes.  On a capacity-8 buffer of
length 1, `copyOver(2, src, 0, 3)` from a distinct 3-element source succeeds,
writes the source cells onto positions 2..4 and sets the length to
`(1 + (3 - 0)) mod 2^64 = 4`; with the arguments `offset = 2 > count = 1`
the wrapped difference makes the length `(1 + (2^64 - 1)) mod 2^64 = 0`. -/
theorem claim_C5_copyOver_contract_witness :
    (let dst := ((Buffer.mkEmpty : Buffer Nat 8).push_back 9).2
     let src :=
       ((((Buffer.mkEmpty : Buffer Nat 4).push_back 1).2.push_back 2).2.push_back 3).2
     (dst.copyOver src 2 0 3).1 = none ∧
     (dst.copyOver src 2 0 3).2.length = 4 ∧
     (dst.copyOver src 2 0 3).2.data (2 + 1) = src.data (0 + 1) ∧
     (dst.copyOver src 4 2 1).1 = none ∧
     (dst.copyOver src 4 2 1).2.length = 0) := by
  have h := (claim_C5_copyOver_contract
    (((Buffer.mkEmpty : Buffer Nat 8).push_back 9).2)
    (((((Buffer.mkEmpty : Buffer Nat 4).push_back 1).2.push_back 2).2.push_back 3).2)
    2 0 3).2.2 (by decide)
  have hw := (claim_C5_copyOver_contract
    (((Buffer.mkEmpty : Buffer Nat 8).push_back 9).2)
    (((((Buffer.mkEmpty : Buffer Nat 4).push_back 1).2.push_back 2).2.push_back 3).2)
    4 2 1).2.2 (by decide)
  refine ⟨h.1, ?_, h.2.2.1 1 (by decide), hw.1, ?_⟩
  · rw [h.2.1]
    decide
  · rw [hw.2.1]
    decide

theorem slice_zero_eq_take {T : Type} {C : Nat} (b : Buffer T C) (n : Nat)
    (h : n ≤ b.length) :
    slice b 0 n = b.live.take n := by
  apply List.ext_getElem
  · simp [slice, Buffer.live]
    omega
  · intro i h1 h2
    rw [slice_getElem b 0 n i h1, List.getElem_take]
    simp [Buffer.live]

/-- Claim C6: on a non-empty buffer of `m` live elements with
`n ≤ min(m, N)`, `take<N>(n)` returns a buffer holding exactly the first `n`
live elements in order, and afterwards the original buffer holds the
original sequence with its first `n` elements removed, order preserved, its
size reduced by exactly `n`. -/
theorem claim_C6_take_front {T : Type} [Inhabited T] {C : Nat} (b : Buffer T C)
    (N n : Nat) (hne : 0 < b.length) (hcap : b.length ≤ C) (hn : n ≤ b.length)
    (hN : n ≤ N) :
    (b.take N n).1.live = b.live.take n ∧
    (b.take N n).1.size = n ∧
    (b.take N n).2.live = b.live.drop n ∧
    (b.take N n).2.size = b.length - n := by
  have hguard : ¬ (0 > b.length) := by omega
  have htaken : (b.take N n).1 =
      { data := writeList (fun _ => (default : T)) 0 (slice b 0 n), length := 0 + n } := by
    simp [Buffer.take, Buffer.copy, hguard, Buffer.mkEmpty]
  have hlive1 : (b.take N n).1.live = slice b 0 n := by
    rw [htaken]
    have hl := live_write (Buffer.mkEmpty : Buffer T N) (slice b 0 n)
    rw [slice_length] at hl
    simpa [Buffer.mkEmpty, Buffer.live] using hl
  have hg2 : ¬ C < b.length - n := by omega
  have hg3 : ¬ b.length < b.length - n := by omega
  have hb2 : (b.take N n).2 =
      { data := selfCopyLoop b.data 0 n (b.length - n), length := b.length - n } := by
    simp [Buffer.take, Buffer.copyOverSelf, hg2, hg3]
  have hlive2 : (b.take N n).2.live = b.live.drop n := by
    rw [hb2]
    apply List.ext_getElem
    · simp [Buffer.live]
    · intro i h1 h2
      simp only [Buffer.live, List.getElem_map, List.getElem_range]
      have hi : i < b.length - n := by
        simpa [Buffer.live] using h1
      rw [selfCopyLoop_zero b.data n (b.length - n) i, if_pos hi, List.getElem_drop]
      simp [Buffer.live]
  refine ⟨hlive1.trans (slice_zero_eq_take b n hn), ?_, hlive2, ?_⟩
  · rw [htaken]
    simp [Buffer.size]
  · rw [hb2]
    rfl

/-- Witness for C6, the spec's concrete scenario: a capacity-8 buffer holding
`[10, 20, 30, 40, 50]`; `take<4>(2)` returns `[10, 20]` and the buffer
afterwards holds `[30, 40, 50]` with size 3. -/
theorem claim_C6_take_front_witness :
    (let b := ((((((Buffer.mkEmpty : Buffer Nat 8).push_back 10).2.push_back
        20).2.push_back 30).2.push_back 40).2.push_back 50).2
     (b.take 4 2).1.live = b.live.take 2 ∧
     (b.take 4 2).1.size = 2 ∧
     (b.take 4 2).2.live = b.live.drop 2 ∧
     (b.take 4 2).2.size = 3 ∧
     (b.take 4 2).1.live = [10, 20] ∧
     (b.take 4 2).2.live = [30, 40, 50]) := by
  have h := claim_C6_take_front
    (((((((Buffer.mkEmpty : Buffer Nat 8).push_back 10).2.push_back
      20).2.push_back 30).2.push_back 40).2.push_back 50).2)
    4 2 (by decide) (by decide) (by decide) (by decide)
  exact ⟨h.1, h.2.1, h.2.2.1, h.2.2.2, by decide, by decide⟩

theorem append_ok {T : Type} {C : Nat} (b : Buffer T C) (arr : List T)
    (h : b.length + arr.length ≤ C) :
    (b.append arr).1 = none ∧ (b.append arr).2.length = b.length + arr.length ∧
    (b.append arr).2.live = b.live ++ arr := by
  have hno : ¬ b.length + arr.length > C := by omega
  have hres : (b.append arr).2 =
      { data := writeList b.data b.length arr, length := b.length + arr.length } := by
    simp [Buffer.append, hno]
  refine ⟨by simp [Buffer.append, hno], by simp [hres], ?_⟩
  rw [hres]
  exact live_write b arr

theorem getBytes_length (w t : Nat) : (getBytes w t).length = w := by
  simp [getBytes]

theorem toBytes_fold_spec {C : Nat} (b : Buffer Nat C) (w : Nat) (hcap : b.length ≤ C) :
    ∀ k, k ≤ b.length →
      (((List.range k).foldl
          (fun acc i => (acc.append (getBytes w (b.data i))).2)
          (Buffer.mkEmpty : Buffer Nat (C * w))).length = k * w ∧
       ((List.range k).foldl
          (fun acc i => (acc.append (getBytes w (b.data i))).2)
          (Buffer.mkEmpty : Buffer Nat (C * w))).live =
         ((b.live.take k).map (getBytes w)).flatten) := by
  intro k
  induction k with
  | zero =>
    intro _
    exact ⟨by simp [Buffer.mkEmpty], by simp [Buffer.mkEmpty, Buffer.live]⟩
  | succ k ih =>
    intro hk
    obtain ⟨ihlen, ihlive⟩ := ih (by omega)
    rw [List.range_succ, List.foldl_append, List.foldl_cons, List.foldl_nil]
    have hcount : (k + 1) * w ≤ C * w := Nat.mul_le_mul_right w (by omega)
    have happ := append_ok ((List.range k).foldl
        (fun acc i => (acc.append (getBytes w (b.data i))).2)
        (Buffer.mkEmpty : Buffer Nat (C * w))) (getBytes w (b.data k))
      (by rw [ihlen, getBytes_length]
          have hdist : k * w + w = (k + 1) * w := by ring
          omega)
    constructor
    · rw [happ.2.1, ihlen, getBytes_length]
      ring
    · rw [happ.2.2, ihlive]
      have hk2 : k < b.live.length := by rw [live_length]; omega
      rw [List.take_succ, List.getElem?_eq_getElem hk2]
      simp [live_getElem]

/-- Claim C8: `toBytes()` emits each live element's little-endian byte
expansion contiguously, in element order; the byte sequence is a function of
the live contents alone (two buffers with identical live elements yield
identical byte sequences regardless of capacity); and a buffer of the two
16-bit values `[0x1234, 0x0001]` serializes to `[0x34, 0x12, 0x01, 0x00]`. -/
theorem claim_C8_toBytes_little_endian :
    (∀ (C₁ C₂ w : Nat) (b₁ : Buffer Nat C₁) (b₂ : Buffer Nat C₂),
      b₁.length ≤ C₁ → b₂.length ≤ C₂ →
      ((b₁.toBytes w).live = (b₁.live.map (getBytes w)).flatten ∧
       (b₁.live = b₂.live → (b₁.toBytes w).live = (b₂.toBytes w).live))) ∧
    ((((((Buffer.mkEmpty : Buffer Nat 2).push_back 0x1234).2.push_back
        0x0001).2).toBytes 2).live = [0x34, 0x12, 0x01, 0x00]) := by
  constructor
  · intro C₁ C₂ w b₁ b₂ h1 h2
    have htake1 : b₁.live.take b₁.length = b₁.live := by
      rw [← live_length b₁]
      exact List.take_length b₁.live
    have htake2 : b₂.live.take b₂.length = b₂.live := by
      rw [← live_length b₂]
      exact List.take_length b₂.live
    have e1 : (b₁.toBytes w).live = (b₁.live.map (getBytes w)).flatten := by
      have := (toBytes_fold_spec b₁ w h1 b₁.length (le_refl _)).2
      rw [htake1] at this
      exact this
    have e2 : (b₂.toBytes w).live = (b₂.live.map (getBytes w)).flatten := by
      have := (toBytes_fold_spec b₂ w h2 b₂.length (le_refl _)).2
      rw [htake2] at this
      exact this
    exact ⟨e1, fun heq => by rw [e1, e2, heq]⟩
  · decide

/-- Witness for C8: two buffers of different capacities (2 and 3) holding the
same single live element `0x1234` produce the same byte sequence
`[0x34, 0x12]` under `toBytes` with element width 2. -/
theorem claim_C8_toBytes_little_endian_witness :
    ((((Buffer.mkEmpty : Buffer Nat 2).push_back 0x1234).2.toBytes 2).live =
      ((((Buffer.mkEmpty : Buffer Nat 2).push_back 0x1234).2).live.map
        (getBytes 2)).flatten) ∧
    ((((Buffer.mkEmpty : Buffer Nat 2).push_back 0x1234).2.toBytes 2).live =
      (((Buffer.mkEmpty : Buffer Nat 3).push_back 0x1234).2.toBytes 2).live) := by
  have h := claim_C8_toBytes_little_endian.1 2 3 2
    (((Buffer.mkEmpty : Buffer Nat 2).push_back 0x1234).2)
    (((Buffer.mkEmpty : Buffer Nat 3).push_back 0x1234).2)
    (by decide) (by decide)
  exact ⟨h.1, h.2 (by decide)⟩

/-- Claim C9 (amended): forward iteration (`begin() .. end()`) is
bounds-restricted to the live prefix `[0, length)` — it visits exactly
`length` elements, the stored values at indices below `length` — while
`operator[]` performs no bounds check at all: it returns the raw storage
slot for any index, so an access at an index `≥ length` silently yields the
stale slot value. -/
theorem claim_C9_iteration_live_index_unchecked {T : Type} {C : Nat}
    (b : Buffer T C) (idx : Nat) :
    (b.live.length = b.length ∧
     ∀ i (h : i < b.live.length), b.live.get ⟨i, h⟩ = b.data i) ∧
    b.elemAt idx = b.data idx := by
  refine ⟨⟨live_length b, ?_⟩, rfl⟩
  intro i h
  simpa [List.get_eq_getElem] using live_getElem b i h

/-- Witness for C9 on a capacity-4 buffer holding `[7]`: iteration visits
exactly one element, namely the stored `7`, while `operator[]` at the
out-of-contract index 2 returns the raw slot value. -/
theorem claim_C9_iteration_live_index_unchecked_witness :
    ((((Buffer.mkEmpty : Buffer Nat 4).push_back 7).2).live.length =
      (((Buffer.mkEmpty : Buffer Nat 4).push_back 7).2).length) ∧
    ((((Buffer.mkEmpty : Buffer Nat 4).push_back 7).2).elemAt 2 =
      (((Buffer.mkEmpty : Buffer Nat 4).push_back 7).2).data 2) ∧
    ((((Buffer.mkEmpty : Buffer Nat 4).push_back 7).2).live.get ⟨0, by decide⟩ =
      (((Buffer.mkEmpty : Buffer Nat 4).push_back 7).2).data 0) := by
  have h := claim_C9_iteration_live_index_unchecked
    (((Buffer.mkEmpty : Buffer Nat 4).push_back 7).2) 2
  exact ⟨h.1.1, h.2, h.1.2 0 (by decide)⟩

end Meta
